import Mathlib

/-!
Verification development for the graphbrain high-level API core:
the tri-state rule validator (`graphbrain/api/validation.py`), the
pattern sanitizer (`graphbrain/api/utils.py`), the bounded reasoning
walker (`graphbrain/api/graph_ops.py`) and the user-fact helper
(`graphbrain/api/core.py`).

The underlying hyperedge type and the fact store are external
collaborators of the code under study (the `graphbrain.hyperedge` and
`graphbrain.memory` modules are not part of the API core); they are
embedded by their interface: a hyperedge is a connector plus arguments,
compared by canonical text, and the store exposes fallible enumeration,
attribute lookup and pattern search, modelled with `Except`.
-/

/-- Substring test on lists of characters: does `kw` occur at the head? -/
def headMatch : List Char → List Char → Bool
  | [], _ => true
  | _ :: _, [] => false
  | k :: ks, c :: cs => k == c && headMatch ks cs

/-- Substring test on lists of characters (Python `sub in s`). -/
def hasSub (kw : List Char) : List Char → Bool
  | [] => kw.isEmpty
  | c :: cs => headMatch kw (c :: cs) || hasSub kw cs

/-- Python `sub in s` on strings. -/
def strContains (s sub : String) : Bool := hasSub sub.toList s.toList

/-- Python `s.lower()` (ASCII case folding, which covers all symbols the
code compares). -/
def lowerStr (s : String) : String := String.mk (s.toList.map Char.toLower)

/-- A fact: a connector plus an ordered list of arguments, each an
atomic symbol (with its type tag as part of its text) or a nested fact.
This is the interface of `graphbrain.hyperedge.Hyperedge` that the API
core uses: facts are value types compared by canonical text. -/
inductive Hyperedge where
  | atom (s : String)
  | comp (args : List Hyperedge)

mutual

def Hyperedge.beq : Hyperedge → Hyperedge → Bool
  | .atom s, .atom t => s == t
  | .comp l, .comp m => beqEdgeList l m
  | _, _ => false

def beqEdgeList : List Hyperedge → List Hyperedge → Bool
  | [], [] => true
  | a :: l, b :: m => Hyperedge.beq a b && beqEdgeList l m
  | _, _ => false

end

mutual

theorem Hyperedge.beq_iff : ∀ a b : Hyperedge, (Hyperedge.beq a b = true) ↔ a = b
  | .atom s, .atom t => by simp [Hyperedge.beq]
  | .atom _, .comp _ => by simp [Hyperedge.beq]
  | .comp _, .atom _ => by simp [Hyperedge.beq]
  | .comp l, .comp m => by
      rw [show Hyperedge.beq (.comp l) (.comp m) = beqEdgeList l m from rfl,
        beqEdgeList_iff l m]
      exact ⟨fun h => by rw [h], fun h => by cases h; rfl⟩

theorem beqEdgeList_iff : ∀ l m : List Hyperedge, (beqEdgeList l m = true) ↔ l = m
  | [], [] => by simp [beqEdgeList]
  | [], _ :: _ => by simp [beqEdgeList]
  | _ :: _, [] => by simp [beqEdgeList]
  | a :: l, b :: m => by
      rw [show beqEdgeList (a :: l) (b :: m)
            = (Hyperedge.beq a b && beqEdgeList l m) from rfl]
      rw [Bool.and_eq_true, Hyperedge.beq_iff a b, beqEdgeList_iff l m]
      exact ⟨fun h => by rw [h.1, h.2], fun h => by cases h; exact ⟨rfl, rfl⟩⟩

end

instance : DecidableEq Hyperedge := fun a b =>
  decidable_of_iff (Hyperedge.beq a b = true) (Hyperedge.beq_iff a b)

mutual

/-- Canonical textual serialization of a fact (`Hyperedge.to_str`). -/
def Hyperedge.to_str : Hyperedge → String
  | .atom s => s
  | .comp args => "(" ++ " ".intercalate (toStrList args) ++ ")"

def toStrList : List Hyperedge → List String
  | [] => []
  | e :: es => e.to_str :: toStrList es

end

mutual

/-- The atomic symbols a fact contains transitively (`Hyperedge.atoms`,
each rendered by `str`, so type tags are part of the symbol text).  The
source returns them as a collection to iterate; the list keeps the
left-to-right order of the expression. -/
def atomsOf : Hyperedge → List String
  | .atom s => [s]
  | .comp args => atomsOfList args

def atomsOfList : List Hyperedge → List String
  | [] => []
  | e :: es => atomsOf e ++ atomsOfList es

end

/-- `str(rule[0]) if len(rule) > 0 else ""` - the connector of a rule
(for an atom, indexing yields its own text). -/
def connectorOf : Hyperedge → String
  | .atom s => s
  | .comp [] => ""
  | .comp (c :: _) => c.to_str

/-- Attribute maps as stored by the adapter: string keys to string
values (`GraphbrainAPI.set_attrs` coerces every value with `str`). -/
abbrev AttrMap := List (String × String)

/-- Error kinds surfaced by the embedded code, mirroring
`graphbrain/api/exceptions.py` plus raw (unwrapped) backend faults. -/
inductive APIError where
  | graphPattern (msg : String)
  | store (msg : String)
  | other (msg : String)
deriving DecidableEq

deriving instance DecidableEq for Except

/-- The fact-store adapter interface consumed by the core
(`hg.all()`, `hg.get_attributes`, `hg.search` composed with the
black-box `hedge` parser), each call fallible. -/
structure StoreModel where
  allList : Except String (List Hyperedge)
  getAttributes : Hyperedge → Except String (Option AttrMap)
  search : String → Except String (List Hyperedge)

/-- Python `pattern.count(c)` for a single character. -/
def parenCount (s : String) (c : Char) : Nat :=
  (s.toList.filter (fun x => x == c)).length

/-- The running-depth scan of `sanitize_pattern`: `cur` is the current
depth (an integer, it may go negative), the second accumulator is the
maximum observed depth, updated after each opening parenthesis. -/
def depthScan : List Char → Int → Int → Int
  | [], _, m => m
  | c :: cs, cur, m =>
    if c = '(' then depthScan cs (cur + 1) (max m (cur + 1))
    else if c = ')' then depthScan cs (cur - 1) m
    else depthScan cs cur m

/-- Maximum observed nesting depth of a pattern (`sanitize_pattern`). -/
def maxObservedDepth (s : String) : Int := depthScan s.toList 0 0

/-- Python whitespace class for the regex token `\s` on `str` patterns:
the 29 code points CPython's regex engine treats as whitespace (the
ASCII controls and space, the C1 separators 1C-1F, NEL 85, NO-BREAK
SPACE A0, OGHAM SPACE 1680, the 2000-200A spaces, LINE and PARAGRAPH
SEPARATOR 2028/2029, NARROW NO-BREAK 202F, MEDIUM MATHEMATICAL 205F
and IDEOGRAPHIC SPACE 3000). -/
def pyWhitespace (c : Char) : Bool :=
  (0x09 ≤ c.toNat && c.toNat ≤ 0x0D)
    || (0x1C ≤ c.toNat && c.toNat ≤ 0x20)
    || c.toNat == 0x85 || c.toNat == 0xA0 || c.toNat == 0x1680
    || (0x2000 ≤ c.toNat && c.toNat ≤ 0x200A)
    || c.toNat == 0x2028 || c.toNat == 0x2029 || c.toNat == 0x202F
    || c.toNat == 0x205F || c.toNat == 0x3000

/-- Scan for `kw` at any position after a `;`, stopping at a newline
(the regex `.` of `;.*KW` does not cross line breaks). The input list
is already lower-cased. -/
def kwAfterSemi (kw : List Char) : List Char → Bool
  | [] => false
  | c :: cs => if c = '\n' then false else headMatch kw (c :: cs) || kwAfterSemi kw cs

/-- `re.search(";.*KW", s, re.IGNORECASE)` on the lower-cased text. -/
def semiThenKW (kw : List Char) : List Char → Bool
  | [] => false
  | c :: cs => (c == ';' && kwAfterSemi kw cs) || semiThenKW kw cs

/-- `re.search("--\s", s)`: two dashes followed by a whitespace. -/
def hasDashDashWS : List Char → Bool
  | [] => false
  | c :: cs =>
    (match c, cs with
     | '-', '-' :: d :: _ => pyWhitespace d
     | _, _ => false) || hasDashDashWS cs

/-- The fixed denylist scan of `sanitize_pattern`: the patterns
`;.*DROP`, `;.*DELETE`, `;.*UPDATE` (case-insensitive) and `--\s`. -/
def isSuspicious (p : String) : Bool :=
  let l := p.toList.map Char.toLower
  semiThenKW "drop".toList l || semiThenKW "delete".toList l
    || semiThenKW "update".toList l || hasDashDashWS l

/-- `sanitize_pattern(pattern, max_depth)` from `graphbrain/api/utils.py`:
balance check, then depth check, then denylist check; on success the
input is returned unchanged.  The numeric details interpolated into the
depth message are elided; the error kind (`GraphPatternError`) and the
check order are preserved. -/
def sanitize_pattern (pattern : String) (max_depth : Nat) : Except APIError String :=
  if parenCount pattern '(' ≠ parenCount pattern ')' then
    .error (.graphPattern "Unbalanced parentheses in pattern")
  else if (max_depth : Int) < maxObservedDepth pattern then
    .error (.graphPattern "Pattern depth exceeds maximum")
  else if isSuspicious pattern then
    .error (.graphPattern "Potentially malicious pattern detected")
  else
    .ok pattern


/-- `GraphbrainAPI.all_edges(limit)`: materialize `hg.all()` and truncate
(a backend fault propagates unwrapped). -/
def allEdgesM (st : StoreModel) (limit : Nat) : Except APIError (List Hyperedge) :=
  match st.allList with
  | .error m => .error (.other m)
  | .ok es => .ok (es.take limit)

/-- `GraphbrainAPI.get_attrs(edge)`: a backend fault propagates unwrapped. -/
def getAttrsM (st : StoreModel) (e : Hyperedge) : Except APIError (Option AttrMap) :=
  match st.getAttributes e with
  | .error m => .error (.other m)
  | .ok a => .ok a

/-- `GraphbrainAPI.query(pattern)` (default arguments): sanitize, parse
(the black-box `hedge` is folded into `StoreModel.search`), search; a
search fault is wrapped into `StoreError`. -/
def apiQuery (st : StoreModel) (pattern : String) : Except APIError (List Hyperedge) :=
  match sanitize_pattern pattern 10 with
  | .error e => .error e
  | .ok p =>
    match st.search p with
    | .error m => .error (.store ("Query failed: " ++ m))
    | .ok rs => .ok rs

/-- The per-atom filter of the context-collection loop in
`_evaluate_edge`: `"/C" in atom_str and "user" not in atom_str.lower()`. -/
def keepCtxSym (a : String) : Bool :=
  strContains a "/C" && !(strContains (lowerStr a) "user")

/-- The symbols one user-layer fact contributes to the user context. -/
def userSyms (e : Hyperedge) : Finset String :=
  ((atomsOf e).filter keepCtxSym).toFinset

/-- The context-collection loop body of `_evaluate_edge` (lines 117-123):
on the first attribute-read fault the exception escapes the `for` loop
into the surrounding `except: pass`, so the symbols accumulated so far
are kept.  An edge whose attribute map is missing or empty is skipped
(Python tests `attrs and attrs.get("layer") == "user"`; an empty map is
falsy and also has no `layer` key, so the lookup test is equivalent). -/
def collectGo (st : StoreModel) : List Hyperedge → Finset String → Finset String
  | [], acc => acc
  | e :: es, acc =>
    match st.getAttributes e with
    | .error _ => acc
    | .ok none => collectGo st es acc
    | .ok (some m) =>
      if m.lookup "layer" = some "user" then collectGo st es (acc ∪ userSyms e)
      else collectGo st es acc

/-- The user-context set computed inside `_evaluate_edge`: scan
`all_edges(limit=1000)`; any error is swallowed (`except: pass`),
leaving whatever was accumulated (nothing when enumeration itself
fails, since `hg.all()` is materialized before iteration starts). -/
def collectUserConditions (st : StoreModel) : Finset String :=
  match st.allList with
  | .error _ => ∅
  | .ok es => collectGo st (es.take 1000) ∅

/-- `direct_overlap = proposed_concepts & rule_concepts`. -/
def ruleDirect (pcs : Finset String) (r : Hyperedge) : Finset String :=
  pcs ∩ (atomsOf r).toFinset

/-- `context_overlap = user_conditions & rule_concepts`. -/
def ruleContext (ucs : Finset String) (r : Hyperedge) : Finset String :=
  ucs ∩ (atomsOf r).toFinset

/-- `total_overlap = direct_overlap | context_overlap`. -/
def ruleTotal (pcs ucs : Finset String) (r : Hyperedge) : Finset String :=
  ruleDirect pcs r ∪ ruleContext ucs r

/-- Contraindication connector family: `"contraind" in c.lower() or
"forbidden" in c.lower()`. -/
def isContraConnector (c : String) : Bool :=
  strContains (lowerStr c) "contraind" || strContains (lowerStr c) "forbidden"

/-- Recommendation connector family: `"recommend"` or `"advise"`. -/
def isRecommendConnector (c : String) : Bool :=
  strContains (lowerStr c) "recommend" || strContains (lowerStr c) "advise"

/-- Obligation connector family: `"oblige"` or `"require"`. -/
def isObligConnector (c : String) : Bool :=
  strContains (lowerStr c) "oblige" || strContains (lowerStr c) "require"

/-- The `mandatory` attribute parse of `_evaluate_edge` line 148: stored
attribute values are strings (the adapter coerces with `str`), so a
present value is lower-cased and compared with `"true"`; an absent key
falls to the non-string branch, which defaults to `False`. -/
def mandatoryOf (m : AttrMap) : Bool :=
  match m.lookup "mandatory" with
  | some s => lowerStr s == "true"
  | none => false

/-- `float(attrs.get("confidence", 1.0))`: an absent key defaults to
`1.0`; a present value goes through the float parser `pf` (a parameter
standing for the Python `float` builtin), whose failure raises. -/
def confValue (pf : String → Option ℚ) (m : AttrMap) : Except APIError ℚ :=
  match m.lookup "confidence" with
  | none => .ok 1
  | some s =>
    match pf s with
    | some q => .ok q
    | none => .error (.other "could not convert string to float")

/-- One why-trace entry (`trace_entry` dict of `_evaluate_edge`); the
three symbol collections are Python sets, embedded as finite sets. -/
structure TraceEntry where
  rule : String
  connector : String
  layer : Option String
  source : Option String
  mandatory : Bool
  confidence : ℚ
  matched_concepts : Finset String
  direct_match : Finset String
  user_context : Finset String
deriving DecidableEq

/-- The trace entry recorded for rule `r` with attribute map `ra` and
parsed confidence `conf` against proposal symbols `pcs` and user
context `ucs`. -/
def traceEntryFor (pcs ucs : Finset String) (r : Hyperedge) (ra : AttrMap) (conf : ℚ) :
    TraceEntry :=
  { rule := r.to_str
  , connector := connectorOf r
  , layer := ra.lookup "layer"
  , source := ra.lookup "source"
  , mandatory := mandatoryOf ra
  , confidence := conf
  , matched_concepts := ruleTotal pcs ucs r
  , direct_match := ruleDirect pcs r
  , user_context := ruleContext ucs r }

/-- Tri-state decision. -/
inductive Decision where
  | ALLOW
  | DENY
  | UNKNOWN
deriving DecidableEq

/-- The rule loop of `_evaluate_edge` (lines 127-176).  `pcs` is the
proposal's symbol set, `ucs` the collected user context, `trace` the
accumulated why-trace.  A rule sharing fewer than two total symbols is
skipped outright; otherwise its attributes are read (fault propagates),
the trace entry is built (the confidence parse may raise), and the
fixed priority order decides: mandatory contraindication returns DENY,
mandatory obligation returns UNKNOWN, a recommendation is recorded and
scanning continues, anything else is ignored.  Falling off the end
returns ALLOW (line 176 consults `strategy` but yields ALLOW in both
branches). -/
def evalRules (st : StoreModel) (pf : String → Option ℚ) (strat : String)
    (pcs ucs : Finset String) :
    List Hyperedge → List TraceEntry → Except APIError (Decision × List TraceEntry)
  | [], trace =>
    if !trace.isEmpty then .ok (.ALLOW, trace)
    else .ok ((if strat == "simple" then Decision.ALLOW else Decision.ALLOW), trace)
  | r :: rest, trace =>
    if 2 ≤ (ruleTotal pcs ucs r).card then
      match st.getAttributes r with
      | .error m => .error (.other m)
      | .ok aOpt =>
        let ra := aOpt.getD []
        match confValue pf ra with
        | .error e => .error e
        | .ok conf =>
          let conn := connectorOf r
          let entry := traceEntryFor pcs ucs r ra conf
          if isContraConnector conn && mandatoryOf ra then
            .ok (.DENY, trace ++ [entry])
          else if isObligConnector conn && mandatoryOf ra then
            .ok (.UNKNOWN, trace ++ [entry])
          else if isRecommendConnector conn then
            evalRules st pf strat pcs ucs rest (trace ++ [entry])
          else
            evalRules st pf strat pcs ucs rest trace
    else
      evalRules st pf strat pcs ucs rest trace

/-- `_evaluate_edge(api, proposed, rules, strategy)`: build the
proposal's symbol set, collect the user context (best effort), then
scan the rules in order with an empty initial trace. -/
def evaluate_edge (st : StoreModel) (pf : String → Option ℚ) (proposed : Hyperedge)
    (rules : List Hyperedge) (strat : String) :
    Except APIError (Decision × List TraceEntry) :=
  evalRules st pf strat ((atomsOf proposed).toFinset) (collectUserConditions st) rules []

/-- One per-fact entry of a `ValidationReport` list (`kept` entries have
no reason and no suggestions; the source dicts simply omit those keys). -/
structure ResultItem where
  edge : Hyperedge
  edge_str : String
  reason : Option String
  suggestions : List String
  why_trace : List TraceEntry
deriving DecidableEq

/-- A `kept` entry (validation.py lines 61-65). -/
def keptItem (p : Hyperedge) (tr : List TraceEntry) : ResultItem :=
  { edge := p, edge_str := p.to_str, reason := none, suggestions := [], why_trace := tr }

/-- A `rejected` entry (lines 67-72). -/
def rejectedItem (p : Hyperedge) (tr : List TraceEntry) : ResultItem :=
  { edge := p, edge_str := p.to_str
  , reason := some "contraindicated or forbidden by rules"
  , suggestions := [], why_trace := tr }

/-- An `unknown` entry (lines 74-80). -/
def unknownItem (p : Hyperedge) (tr : List TraceEntry) : ResultItem :=
  { edge := p, edge_str := p.to_str
  , reason := some "insufficient information"
  , suggestions := ["add more context", "clarify user conditions"]
  , why_trace := tr }

/-- The ValidationReport dict (lines 90-96). -/
structure Report where
  decision : Decision
  kept : List ResultItem
  rejected : List ResultItem
  unknown : List ResultItem
  rules_checked : Nat
deriving DecidableEq

/-- Aggregation (lines 82-96): DENY if any fact was rejected, else
UNKNOWN if any is undecidable, else ALLOW. -/
def mkReport (k r u : List ResultItem) (n : Nat) : Report :=
  { decision :=
      if !r.isEmpty then .DENY else if !u.isEmpty then .UNKNOWN else .ALLOW
  , kept := k, rejected := r, unknown := u, rules_checked := n }

/-- Whether `attrs and attrs.get("layer") in active` holds for an edge
of the layer-based rule scan (lines 38-41): the map must be present and
non-empty (Python truthiness) and its `layer` value in the active list
(`None in active` is false, the active names being strings). -/
def layerMatch (a : Option AttrMap) (active : List String) : Bool :=
  match a with
  | none => false
  | some m =>
    !m.isEmpty &&
      (match m.lookup "layer" with
       | some l => active.contains l
       | none => false)

/-- The layer-based rule scan (lines 36-41): attribute-read faults
propagate (rule selection is not best-effort). -/
def filterLayerRules (st : StoreModel) (active : List String) :
    List Hyperedge → Except APIError (List Hyperedge)
  | [] => .ok []
  | e :: es =>
    match st.getAttributes e with
    | .error m => .error (.other m)
    | .ok a =>
      match filterLayerRules st active es with
      | .error err => .error err
      | .ok rest => if layerMatch a active then .ok (e :: rest) else .ok rest

/-- `active = layers if layers else list(api._active_layers)` (line 36):
the `layers` argument when truthy (present and non-empty), else the
caller-held toggled set. -/
def activeSetOf (activeLayers : List String) : Option (List String) → List String
  | some ls => if ls.isEmpty then activeLayers else ls
  | none => activeLayers

/-- The layer-based selection path (lines 36-41): scan
`all_edges(limit=10000)` keeping edges whose `layer` is active. -/
def selectByLayers (st : StoreModel) (activeLayers : List String)
    (layers : Option (List String)) : Except APIError (List Hyperedge) :=
  match allEdgesM st 10000 with
  | .error e => .error e
  | .ok es => filterLayerRules st (activeSetOf activeLayers layers) es

/-- Rule selection (lines 32-41): a truthy (non-empty) explicit pattern
delegates to the sanitized store query; otherwise the layer-based scan. -/
def selectRules (st : StoreModel) (activeLayers : List String) :
    Option String → Option (List String) → Except APIError (List Hyperedge)
  | some p, layers =>
    if p.isEmpty then selectByLayers st activeLayers layers else apiQuery st p
  | none, layers => selectByLayers st activeLayers layers

/-- `float(attrs.get("confidence", 1.0)) if attrs else 1.0` of the
confidence filter (line 48): a missing or empty (falsy) map defaults to
`1.0` without touching the parser; otherwise parse as in `confValue`
(an empty map reaches the same result through a failed lookup). -/
def confOfAttrs (pf : String → Option ℚ) : Option AttrMap → Except APIError ℚ
  | none => .ok 1
  | some m => if m.isEmpty then .ok 1 else confValue pf m

/-- Body of the confidence filter loop (lines 45-50). -/
def filterConfGo (st : StoreModel) (pf : String → Option ℚ) (cm : ℚ) :
    List Hyperedge → Except APIError (List Hyperedge)
  | [] => .ok []
  | r :: rs =>
    match st.getAttributes r with
    | .error m => .error (.other m)
    | .ok a =>
      match confOfAttrs pf a with
      | .error e => .error e
      | .ok c =>
        match filterConfGo st pf cm rs with
        | .error e => .error e
        | .ok rest => if cm ≤ c then .ok (r :: rest) else .ok rest

/-- The confidence filter (lines 44-51), applied only when
`confidence_min > 0.0`. -/
def filterConfidence (st : StoreModel) (pf : String → Option ℚ) (cm : ℚ)
    (rules : List Hyperedge) : Except APIError (List Hyperedge) :=
  if 0 < cm then filterConfGo st pf cm rules else .ok rules

/-- The per-proposal loop (lines 57-80): evaluate each proposed edge in
order and append it to the list its decision selects. -/
def evalAll (st : StoreModel) (pf : String → Option ℚ) (rules : List Hyperedge)
    (strat : String) :
    List Hyperedge → Except APIError (List ResultItem × List ResultItem × List ResultItem)
  | [] => .ok ([], [], [])
  | p :: ps =>
    match evaluate_edge st pf p rules strat with
    | .error e => .error e
    | .ok (d, tr) =>
      match evalAll st pf rules strat ps with
      | .error e => .error e
      | .ok (k, r, u) =>
        match d with
        | .ALLOW => .ok (keptItem p tr :: k, r, u)
        | .DENY => .ok (k, rejectedItem p tr :: r, u)
        | .UNKNOWN => .ok (k, r, unknownItem p tr :: u)

/-- `validate_edges_against_rules` (`graphbrain/api/validation.py`).
`st` is the store, `activeLayers` the caller-held toggled layer set,
`pf` the float parser; the proposals arrive already normalized to a
list of parsed edges (the string-to-edge step is the black-box `hedge`). -/
def validate_edges_against_rules (st : StoreModel) (activeLayers : List String)
    (pf : String → Option ℚ) (proposed_edges : List Hyperedge)
    (rule_pattern : Option String) (strategy : String)
    (layers : Option (List String)) (confidence_min : ℚ) : Except APIError Report :=
  match selectRules st activeLayers rule_pattern layers with
  | .error e => .error e
  | .ok rules0 =>
    match filterConfidence st pf confidence_min rules0 with
    | .error e => .error e
    | .ok rules =>
      match evalAll st pf rules strategy proposed_edges with
      | .error e => .error e
      | .ok (k, r, u) => .ok (mkReport k r u rules.length)

/-- One result record of `search_with_reasoning` (graph_ops.py lines
31-37). -/
structure SwrResult where
  edge : Hyperedge
  edge_str : String
  distance : Nat
  path : List String
  attrs : Option AttrMap
deriving DecidableEq

/-- A work-queue entry: `(fact, depth, path)`. -/
abbrev QEntry := Hyperedge × Nat × List Hyperedge

/-- Neighbor expansion for one atomic symbol (lines 42-49): issue the
wildcard query `(* atom *)` with `limit=20, sanitize=False`; a fault is
caught and the symbol is skipped; results already visited are filtered
at enqueue time, the rest are enqueued one hop deeper with the path
extended. -/
def expandSym (st : StoreModel) (visited : List String) (dist : Nat)
    (path : List Hyperedge) (a : String) : List QEntry :=
  match st.search ("(* " ++ a ++ " *)") with
  | .error _ => []
  | .ok rs =>
    ((rs.take 20).filter (fun r => !(visited.contains r.to_str))).map
      (fun r => (r, dist + 1, path ++ [r]))

/-- Expansion over every atomic symbol of the dequeued fact (line 41). -/
def expandAll (st : StoreModel) (cur : Hyperedge) (visited : List String)
    (dist : Nat) (path : List Hyperedge) : List QEntry :=
  (atomsOf cur).flatMap (expandSym st visited dist path)

/-- The queue-processing loop of `search_with_reasoning` (lines 23-49):
dequeue, skip if the canonical text was already visited, otherwise mark
visited, emit a result record (the attribute read is not wrapped, so a
fault propagates), and if the depth allows expand the neighbors.  The
loop stops when the queue empties or the result count reaches `limit`. -/
def swrLoop (st : StoreModel) (hops limit : Nat) :
    List QEntry → List String → List SwrResult → Except APIError (List SwrResult)
  | [], _, results => .ok results
  | (cur, dist, path) :: qrest, visited, results =>
    if h : results.length < limit then
      if visited.contains cur.to_str then
        swrLoop st hops limit qrest visited results
      else
        match st.getAttributes cur with
        | .error m => .error (.other m)
        | .ok a =>
          swrLoop st hops limit
            (if dist < hops then
               qrest ++ expandAll st cur (cur.to_str :: visited) dist path
             else qrest)
            (cur.to_str :: visited)
            (results ++ [{ edge := cur, edge_str := cur.to_str, distance := dist
                         , path := path.map Hyperedge.to_str, attrs := a }])
    else .ok results
termination_by q _ r => (limit - r.length, q.length)
decreasing_by
· exact Prod.Lex.right _ (Nat.lt_succ_self _)
· exact Prod.Lex.left _ _ (by simp; omega)

/-- `search_with_reasoning(api, query, hops, limit)` seeded with an
already-parsed fact: queue starts with `(query, 0, [query])`, no
visited facts, no results; the final list is truncated to `limit`. -/
def search_with_reasoning (st : StoreModel) (query : Hyperedge) (hops limit : Nat) :
    Except APIError (List SwrResult) :=
  match swrLoop st hops limit [(query, 0, [query])] [] [] with
  | .error e => .error e
  | .ok rs => .ok (rs.take limit)

/-- Python dict assignment `m[k] = v`: update the existing key in place
or append a new binding. -/
def setAttr : AttrMap → String → String → AttrMap
  | [], k, v => [(k, v)]
  | (k', v') :: rest, k, v =>
    if k' = k then (k, v) :: rest else (k', v') :: setAttr rest k v

/-- `_canon_atom` (utils.py): strip surrounding whitespace, spaces to
underscores. -/
def _canon_atom (s : String) : String := (s.trim).replace " " "_"

/-- `_ensure_typed_concept` (utils.py). -/
def _ensure_typed_concept (x : String) : String :=
  if strContains x "/" then x else _canon_atom x ++ "/C"

/-- `_ensure_typed_pred` (utils.py). -/
def _ensure_typed_pred (x : String) : String :=
  if strContains x "/" then x else _canon_atom x ++ "/P"

/-- The observable effect of `GraphbrainAPI.add_edge` for string
arguments with `auto_type=True`: the edge text built on line 91 and the
attribute map written to the store (each value through `str`, already
strings here). -/
def add_edge_model (connector : String) (args : List String) (attrs : AttrMap) :
    String × AttrMap :=
  let conn := _ensure_typed_pred connector
  let fargs := args.map _ensure_typed_concept
  ("(" ++ conn ++ " " ++ " ".intercalate fargs ++ ")", attrs)

/-- `GraphbrainAPI.add_user_fact` (core.py lines 307-321): build the
concept from the text, force `attrs["layer"] = "user"`, optionally
record a truthy `session_id`, then add `("a", ["user", concept])`. -/
def add_user_fact (text : String) (attrs : Option AttrMap)
    (session_id : Option String) : String × AttrMap :=
  let concept := ((lowerStr text).trim).replace " " "-"
  let a0 := attrs.getD []
  let a1 := setAttr a0 "layer" "user"
  let a2 :=
    match session_id with
    | some sid => if sid.isEmpty then a1 else setAttr a1 "session_id" sid
    | none => a1
  add_edge_model "a" ["user", concept] a2

theorem setAttr_lookup_self (m : AttrMap) (k v : String) :
    (setAttr m k v).lookup k = some v := by
  induction m with
  | nil => simp [setAttr, List.lookup]
  | cons p rest ih =>
    obtain ⟨k', v'⟩ := p
    by_cases h : k' = k
    · subst h; simp [setAttr, List.lookup]
    · have hb : (k == k') = false := beq_eq_false_iff_ne.mpr (Ne.symm h)
      simp [setAttr, h, List.lookup, hb, ih]

theorem setAttr_lookup_ne (m : AttrMap) (k k' v : String) (h : k' ≠ k) :
    (setAttr m k v).lookup k' = m.lookup k' := by
  have hb : (k' == k) = false := beq_eq_false_iff_ne.mpr h
  induction m with
  | nil => simp [setAttr, List.lookup, hb]
  | cons p rest ih =>
    obtain ⟨ka, va⟩ := p
    by_cases hk : ka = k
    · subst hk; simp [setAttr, List.lookup, hb]
    · simp [setAttr, hk, List.lookup, ih]

/-- Claim C10: every call to `add_user_fact` stores the fact with its
`layer` attribute equal to `"user"`, the method overwriting any
caller-supplied `layer` value in `attrs` before adding the edge. -/
theorem claim_C10 (text : String) (attrs : Option AttrMap) (sid : Option String) :
    ((add_user_fact text attrs sid).2).lookup "layer" = some "user" := by
  unfold add_user_fact add_edge_model
  cases sid with
  | none => exact setAttr_lookup_self _ _ _
  | some s =>
    by_cases hs : s.isEmpty
    · simp only [hs, if_pos]
      exact setAttr_lookup_self _ _ _
    · simp only [hs, Bool.false_eq_true, if_neg, if_false]
      rw [setAttr_lookup_ne _ _ _ _ (by decide)]
      exact setAttr_lookup_self _ _ _

/-- Claim C6: the sanitizer rejects with the distinguishable
invalid-pattern error exactly when the parenthesis counts differ, the
maximum observed nesting depth exceeds the ceiling (10), or a
denylisted token is present case-insensitively, the checks firing in
that order; otherwise the input is returned unchanged.  The stated
examples behave as claimed. -/
theorem claim_C6 :
    (∀ p : String,
        (∃ m, sanitize_pattern p 10 = .error (.graphPattern m)) ↔
          (parenCount p '(' ≠ parenCount p ')' ∨ (10 : Int) < maxObservedDepth p
            ∨ isSuspicious p = true))
  ∧ (∀ p : String,
        parenCount p '(' = parenCount p ')' → maxObservedDepth p ≤ 10 →
          isSuspicious p = false → sanitize_pattern p 10 = .ok p)
  ∧ (∀ p : String, parenCount p '(' ≠ parenCount p ')' →
        sanitize_pattern p 10
          = .error (.graphPattern "Unbalanced parentheses in pattern"))
  ∧ (∀ p : String, parenCount p '(' = parenCount p ')' →
        (10 : Int) < maxObservedDepth p →
        sanitize_pattern p 10 = .error (.graphPattern "Pattern depth exceeds maximum"))
  ∧ (∀ p : String, parenCount p '(' = parenCount p ')' →
        maxObservedDepth p ≤ 10 → isSuspicious p = true →
        sanitize_pattern p 10
          = .error (.graphPattern "Potentially malicious pattern detected"))
  ∧ sanitize_pattern "(a (b c) d)" 10 = .ok "(a (b c) d)"
  ∧ sanitize_pattern "(a (b c" 10
      = .error (.graphPattern "Unbalanced parentheses in pattern")
  ∧ sanitize_pattern "(((((((((((a)))))))))))" 10
      = .error (.graphPattern "Pattern depth exceeds maximum") := by
  have hok : ∀ p : String,
      parenCount p '(' = parenCount p ')' → maxObservedDepth p ≤ 10 →
        isSuspicious p = false → sanitize_pattern p 10 = .ok p := by
    intro p h1 h2 h3
    unfold sanitize_pattern
    rw [if_neg (by simp [h1]), if_neg (by omega), if_neg (by simp [h3])]
  have hbal : ∀ p : String, parenCount p '(' ≠ parenCount p ')' →
      sanitize_pattern p 10
        = .error (.graphPattern "Unbalanced parentheses in pattern") := by
    intro p h1
    unfold sanitize_pattern
    rw [if_pos h1]
  have hdep : ∀ p : String, parenCount p '(' = parenCount p ')' →
      (10 : Int) < maxObservedDepth p →
      sanitize_pattern p 10 = .error (.graphPattern "Pattern depth exceeds maximum") := by
    intro p h1 h2
    unfold sanitize_pattern
    rw [if_neg (by simp [h1]), if_pos (by exact_mod_cast h2)]
  have hsus : ∀ p : String, parenCount p '(' = parenCount p ')' →
      maxObservedDepth p ≤ 10 → isSuspicious p = true →
      sanitize_pattern p 10
        = .error (.graphPattern "Potentially malicious pattern detected") := by
    intro p h1 h2 h3
    unfold sanitize_pattern
    rw [if_neg (by simp [h1]), if_neg (by omega), if_pos h3]
  refine ⟨?_, hok, hbal, hdep, hsus, by decide, by decide, by decide⟩
  intro p
  constructor
  · rintro ⟨m, hm⟩
    by_cases h1 : parenCount p '(' = parenCount p ')'
    · by_cases h2 : (10 : Int) < maxObservedDepth p
      · exact Or.inr (Or.inl h2)
      · by_cases h3 : isSuspicious p = true
        · exact Or.inr (Or.inr h3)
        · rw [hok p h1 (by omega) (by simpa using h3)] at hm
          cases hm
    · exact Or.inl h1
  · rintro (h1 | h2 | h3)
    · exact ⟨_, hbal p h1⟩
    · by_cases h1 : parenCount p '(' = parenCount p ')'
      · exact ⟨_, hdep p h1 h2⟩
      · exact ⟨_, hbal p h1⟩
    · by_cases h1 : parenCount p '(' = parenCount p ')'
      · by_cases h2 : (10 : Int) < maxObservedDepth p
        · exact ⟨_, hdep p h1 h2⟩
        · exact ⟨_, hsus p h1 (by omega) h3⟩
      · exact ⟨_, hbal p h1⟩

/-- Witness for claim C6, instantiated at the pattern `"(x)"`. -/
theorem claim_C6_witness :
    (parenCount "(x)" '(' = parenCount "(x)" ')' ∧ maxObservedDepth "(x)" ≤ 10
      ∧ isSuspicious "(x)" = false)
  ∧ sanitize_pattern "(x)" 10 = .ok "(x)" :=
  ⟨⟨by decide, by decide, by decide⟩,
    claim_C6.2.1 "(x)" (by decide) (by decide) (by decide)⟩

/-- Claim C8: with hop limit 0 and any result limit of at least one,
the reasoning walker returns exactly one result record: the seed fact
itself at distance 0 (its attribute read succeeding with `a`). -/
theorem claim_C8 (st : StoreModel) (F : Hyperedge) (limit : Nat) (a : Option AttrMap)
    (hlim : 1 ≤ limit) (ha : st.getAttributes F = .ok a) :
    search_with_reasoning st F 0 limit
      = .ok [{ edge := F, edge_str := F.to_str, distance := 0
             , path := [F.to_str], attrs := a }] := by
  unfold search_with_reasoning
  rw [swrLoop]
  rw [dif_pos (by simpa using hlim)]
  rw [if_neg (by simp)]
  rw [ha]
  simp only [Nat.lt_irrefl, if_neg, if_false]
  rw [swrLoop]
  simp [List.take_of_length_le, hlim]

theorem swrLoop_nodup (st : StoreModel) (hops limit : Nat) :
    ∀ (q : List QEntry) (v : List String) (r : List SwrResult) (out : List SwrResult),
      (∀ x ∈ r, x.edge_str ∈ v) → (r.map SwrResult.edge_str).Nodup →
      swrLoop st hops limit q v r = .ok out → (out.map SwrResult.edge_str).Nodup := by
  intro q v r
  induction q, v, r using swrLoop.induct st hops limit with
  | case1 v r =>
    intro out _ hnd hrun
    rw [swrLoop] at hrun
    cases hrun
    exact hnd
  | case2 cur dist path qrest visited results hlt hv ih =>
    intro out hmem hnd hrun
    rw [swrLoop, dif_pos hlt, if_pos hv] at hrun
    exact ih out hmem hnd hrun
  | case3 cur dist path qrest visited results hlt hv m hga =>
    intro out _ _ hrun
    rw [swrLoop, dif_pos hlt, if_neg hv, hga] at hrun
    cases hrun
  | case4 cur dist path qrest visited results hlt hv a hga ih =>
    intro out hmem hnd hrun
    rw [swrLoop, dif_pos hlt, if_neg hv, hga] at hrun
    have hnotin : cur.to_str ∉ results.map SwrResult.edge_str := by
      intro hin
      obtain ⟨x, hx, hxe⟩ := List.mem_map.mp hin
      have hxv := hmem x hx
      rw [hxe] at hxv
      exact hv (List.elem_eq_true_of_mem hxv)
    refine ih out ?_ ?_ hrun
    · intro x hx
      rcases List.mem_append.mp hx with hl | hr
      · exact List.mem_cons_of_mem _ (hmem x hl)
      · rw [List.mem_singleton.mp hr]
        exact List.mem_cons_self _ _
    · rw [List.map_append]
      refine List.Nodup.append hnd (by simp) ?_
      simp only [List.map_cons, List.map_nil]
      intro x hx hy
      simp only [List.mem_singleton] at hy
      subst hy
      exact hnotin hx
  | case5 cur dist path qrest visited results hlt =>
    intro out _ hnd hrun
    rw [swrLoop, dif_neg hlt] at hrun
    cases hrun
    exact hnd

/-- Claim C7: the reasoning walker never emits two result records with
the same canonical fact text, for any seed, hop limit and result limit:
the dequeue-time visited check guarantees at most one emission per
distinct canonical text. -/
theorem claim_C7 (st : StoreModel) (q : Hyperedge) (hops limit : Nat)
    (out : List SwrResult) (h : search_with_reasoning st q hops limit = .ok out) :
    (out.map SwrResult.edge_str).Nodup := by
  unfold search_with_reasoning at h
  cases hrun : swrLoop st hops limit [(q, 0, [q])] [] [] with
  | error e => rw [hrun] at h; cases h
  | ok rs =>
    rw [hrun] at h
    cases h
    have hnd := swrLoop_nodup st hops limit _ _ _ rs (by simp) (by simp) hrun
    exact hnd.sublist ((List.take_sublist limit rs).map SwrResult.edge_str)

/-- A tiny concrete store: empty enumeration, no attributes, empty
search results. -/
def stTriv : StoreModel :=
  { allList := .ok []
  , getAttributes := fun _ => .ok none
  , search := fun _ => .ok [] }

/-- A concrete seed fact, `(t/P x/C)`. -/
def p0 : Hyperedge := .comp [.atom "t/P", .atom "x/C"]

/-- The single record the walker emits for `p0` on `stTriv`. -/
def res0 : SwrResult :=
  { edge := p0, edge_str := "(t/P x/C)", distance := 0
  , path := ["(t/P x/C)"], attrs := none }

theorem swrTrivRun : search_with_reasoning stTriv p0 2 5 = .ok [res0] := by
  unfold search_with_reasoning
  have h1 : swrLoop stTriv 2 5 [(p0, 0, [p0])] [] []
      = swrLoop stTriv 2 5 [] [p0.to_str] [res0] := by
    conv_lhs => rw [swrLoop]
    rfl
  have h2 : swrLoop stTriv 2 5 [] [p0.to_str] [res0] = .ok [res0] := by
    rw [swrLoop]
  rw [h1, h2]
  rfl

/-- Witness for claim C7 at a concrete store and seed. -/
theorem claim_C7_witness :
    search_with_reasoning stTriv p0 2 5 = .ok [res0]
      ∧ (([res0] : List SwrResult).map SwrResult.edge_str).Nodup :=
  ⟨swrTrivRun, claim_C7 stTriv p0 2 5 [res0] swrTrivRun⟩

/-- Witness for claim C8 at a concrete store and seed. -/
theorem claim_C8_witness :
    search_with_reasoning stTriv p0 0 3
      = .ok [{ edge := p0, edge_str := p0.to_str, distance := 0
             , path := [p0.to_str], attrs := none }] :=
  claim_C8 stTriv p0 3 none (by decide) rfl

theorem evalRules_strat_irrel (st : StoreModel) (pf : String → Option ℚ)
    (pcs ucs : Finset String) (s1 s2 : String) :
    ∀ (rules : List Hyperedge) (trace : List TraceEntry),
      evalRules st pf s1 pcs ucs rules trace = evalRules st pf s2 pcs ucs rules trace := by
  intro rules
  induction rules with
  | nil =>
    intro trace
    simp only [evalRules]
    by_cases ht : trace.isEmpty <;> simp [ht]
  | cons r rest ih =>
    intro trace
    simp only [evalRules]
    by_cases hc : 2 ≤ (ruleTotal pcs ucs r).card
    · rw [if_pos hc, if_pos hc]
      cases hga : st.getAttributes r with
      | error m => rfl
      | ok aOpt =>
        dsimp only
        cases hcv : confValue pf (aOpt.getD []) with
        | error e => rfl
        | ok conf =>
          dsimp only
          by_cases h1 : (isContraConnector (connectorOf r) && mandatoryOf (aOpt.getD [])) = true
          · rw [if_pos h1, if_pos h1]
          · rw [if_neg h1, if_neg h1]
            by_cases h2 : (isObligConnector (connectorOf r) && mandatoryOf (aOpt.getD [])) = true
            · rw [if_pos h2, if_pos h2]
            · rw [if_neg h2, if_neg h2]
              by_cases h3 : isRecommendConnector (connectorOf r) = true
              · rw [if_pos h3, if_pos h3]; exact ih _
              · rw [if_neg h3, if_neg h3]; exact ih _
    · rw [if_neg hc, if_neg hc]; exact ih trace

theorem evaluate_edge_strat_irrel (st : StoreModel) (pf : String → Option ℚ)
    (p : Hyperedge) (rules : List Hyperedge) (s1 s2 : String) :
    evaluate_edge st pf p rules s1 = evaluate_edge st pf p rules s2 :=
  evalRules_strat_irrel st pf _ _ s1 s2 rules []

theorem evalAll_strat_irrel (st : StoreModel) (pf : String → Option ℚ)
    (rules : List Hyperedge) (s1 s2 : String) :
    ∀ props : List Hyperedge,
      evalAll st pf rules s1 props = evalAll st pf rules s2 props := by
  intro props
  induction props with
  | nil => rfl
  | cons p ps ih =>
    simp only [evalAll]
    rw [evaluate_edge_strat_irrel st pf p rules s1 s2, ih]

/-- Claim C9: the `strategy` flag has no effect: for every store state,
active-layer set, float parser, proposal batch, rule pattern, layer
set and confidence threshold, validation under `"simple"` returns
exactly the same ValidationReport (or error) as under `"tri_state"`. -/
theorem claim_C9 (st : StoreModel) (activeLayers : List String)
    (pf : String → Option ℚ) (props : List Hyperedge) (pat : Option String)
    (lys : Option (List String)) (cm : ℚ) :
    validate_edges_against_rules st activeLayers pf props pat "simple" lys cm
      = validate_edges_against_rules st activeLayers pf props pat "tri_state" lys cm := by
  unfold validate_edges_against_rules
  cases selectRules st activeLayers pat lys with
  | error e => rfl
  | ok rules0 =>
    dsimp only
    cases filterConfidence st pf cm rules0 with
    | error e => rfl
    | ok rules =>
      dsimp only
      rw [evalAll_strat_irrel st pf rules "simple" "tri_state" props]

/-- Claim C1: per-fact evaluation iterates rules in selector order; for
each rule, `direct`/`context`/`total` are the stated intersections and
union; a rule sharing fewer than two total symbols is skipped with no
trace entry and no effect; otherwise, in fixed priority order, a
mandatory contraindication-family rule records its entry and returns
DENY immediately, else a mandatory obligation-family rule records its
entry and returns UNKNOWN immediately, else a recommendation-family
rule records its entry and scanning continues; if nothing triggered an
early DENY/UNKNOWN the decision is ALLOW with the accumulated trace. -/
theorem claim_C1 :
    (∀ (st : StoreModel) (pf : String → Option ℚ) (P : Hyperedge)
        (rules : List Hyperedge) (strat : String),
        evaluate_edge st pf P rules strat
          = evalRules st pf strat ((atomsOf P).toFinset) (collectUserConditions st) rules [])
  ∧ (∀ (st : StoreModel) (pf : String → Option ℚ) (strat : String)
        (pcs ucs : Finset String) (r : Hyperedge) (rest : List Hyperedge)
        (trace : List TraceEntry),
        (ruleTotal pcs ucs r).card < 2 →
        evalRules st pf strat pcs ucs (r :: rest) trace
          = evalRules st pf strat pcs ucs rest trace)
  ∧ (∀ (st : StoreModel) (pf : String → Option ℚ) (strat : String)
        (pcs ucs : Finset String) (r : Hyperedge) (rest : List Hyperedge)
        (trace : List TraceEntry) (aOpt : Option AttrMap) (conf : ℚ),
        2 ≤ (ruleTotal pcs ucs r).card →
        st.getAttributes r = .ok aOpt →
        confValue pf (aOpt.getD []) = .ok conf →
        (isContraConnector (connectorOf r) && mandatoryOf (aOpt.getD [])) = true →
        evalRules st pf strat pcs ucs (r :: rest) trace
          = .ok (.DENY, trace ++ [traceEntryFor pcs ucs r (aOpt.getD []) conf]))
  ∧ (∀ (st : StoreModel) (pf : String → Option ℚ) (strat : String)
        (pcs ucs : Finset String) (r : Hyperedge) (rest : List Hyperedge)
        (trace : List TraceEntry) (aOpt : Option AttrMap) (conf : ℚ),
        2 ≤ (ruleTotal pcs ucs r).card →
        st.getAttributes r = .ok aOpt →
        confValue pf (aOpt.getD []) = .ok conf →
        (isContraConnector (connectorOf r) && mandatoryOf (aOpt.getD [])) = false →
        (isObligConnector (connectorOf r) && mandatoryOf (aOpt.getD [])) = true →
        evalRules st pf strat pcs ucs (r :: rest) trace
          = .ok (.UNKNOWN, trace ++ [traceEntryFor pcs ucs r (aOpt.getD []) conf]))
  ∧ (∀ (st : StoreModel) (pf : String → Option ℚ) (strat : String)
        (pcs ucs : Finset String) (r : Hyperedge) (rest : List Hyperedge)
        (trace : List TraceEntry) (aOpt : Option AttrMap) (conf : ℚ),
        2 ≤ (ruleTotal pcs ucs r).card →
        st.getAttributes r = .ok aOpt →
        confValue pf (aOpt.getD []) = .ok conf →
        (isContraConnector (connectorOf r) && mandatoryOf (aOpt.getD [])) = false →
        (isObligConnector (connectorOf r) && mandatoryOf (aOpt.getD [])) = false →
        isRecommendConnector (connectorOf r) = true →
        evalRules st pf strat pcs ucs (r :: rest) trace
          = evalRules st pf strat pcs ucs rest
              (trace ++ [traceEntryFor pcs ucs r (aOpt.getD []) conf]))
  ∧ (∀ (st : StoreModel) (pf : String → Option ℚ) (strat : String)
        (pcs ucs : Finset String) (trace : List TraceEntry),
        evalRules st pf strat pcs ucs [] trace = .ok (.ALLOW, trace)) := by
  refine ⟨fun _ _ _ _ _ => rfl, ?_, ?_, ?_, ?_, ?_⟩
  · intro st pf strat pcs ucs r rest trace hcard
    simp only [evalRules]
    rw [if_neg (by omega)]
  · intro st pf strat pcs ucs r rest trace aOpt conf hcard hga hcv h1
    simp only [evalRules]
    rw [if_pos hcard, hga]
    dsimp only
    rw [hcv]
    dsimp only
    rw [if_pos h1]
  · intro st pf strat pcs ucs r rest trace aOpt conf hcard hga hcv h1 h2
    simp only [evalRules]
    rw [if_pos hcard, hga]
    dsimp only
    rw [hcv]
    dsimp only
    rw [if_neg (by simp [h1]), if_pos h2]
  · intro st pf strat pcs ucs r rest trace aOpt conf hcard hga hcv h1 h2 h3
    simp only [evalRules]
    rw [if_pos hcard, hga]
    dsimp only
    rw [hcv]
    dsimp only
    rw [if_neg (by simp [h1]), if_neg (by simp [h2]), if_pos h3]
  · intro st pf strat pcs ucs trace
    simp only [evalRules]
    by_cases ht : trace.isEmpty <;> simp [ht]

/-- The always-failing float parser (no rule in the concrete stores
below carries a confidence attribute, so it is never consulted). -/
def pfNone : String → Option ℚ := fun _ => none

/-- A concrete mandatory contraindication rule. -/
def rDeny : Hyperedge := .comp [.atom "contraindicated/P", .atom "i/C", .atom "d/C"]

/-- A concrete mandatory obligation rule. -/
def rUnk : Hyperedge := .comp [.atom "required/P", .atom "i/C", .atom "d/C"]

/-- A concrete recommendation rule. -/
def rRec : Hyperedge := .comp [.atom "recommended/P", .atom "i/C", .atom "d/C"]

/-- A concrete store carrying the three rules above. -/
def stC1 : StoreModel :=
  { allList := .ok []
  , getAttributes := fun e =>
      if e = rDeny then .ok (some [("mandatory", "true")])
      else if e = rUnk then .ok (some [("mandatory", "true")])
      else .ok (some [])
  , search := fun _ => .ok [] }

/-- Witness for claim C1: each branch of the per-rule decision at a
concrete store, rule and symbol sets. -/
theorem claim_C1_witness :
    (evaluate_edge stC1 pfNone p0 [rDeny] "tri_state"
        = evalRules stC1 pfNone "tri_state" ((atomsOf p0).toFinset)
            (collectUserConditions stC1) [rDeny] [])
  ∧ evalRules stC1 pfNone "tri_state" {"i/C"} ∅ [rDeny] []
      = evalRules stC1 pfNone "tri_state" {"i/C"} ∅ [] []
  ∧ evalRules stC1 pfNone "tri_state" {"i/C"} {"d/C"} [rDeny] []
      = .ok (.DENY, [traceEntryFor {"i/C"} {"d/C"} rDeny [("mandatory", "true")] 1])
  ∧ evalRules stC1 pfNone "tri_state" {"i/C"} {"d/C"} [rUnk] []
      = .ok (.UNKNOWN, [traceEntryFor {"i/C"} {"d/C"} rUnk [("mandatory", "true")] 1])
  ∧ evalRules stC1 pfNone "tri_state" {"i/C"} {"d/C"} [rRec] []
      = evalRules stC1 pfNone "tri_state" {"i/C"} {"d/C"} []
          [traceEntryFor {"i/C"} {"d/C"} rRec [] 1]
  ∧ evalRules stC1 pfNone "tri_state" {"i/C"} {"d/C"} [] [] = .ok (.ALLOW, []) :=
  ⟨claim_C1.1 stC1 pfNone p0 [rDeny] "tri_state",
   claim_C1.2.1 stC1 pfNone "tri_state" {"i/C"} ∅ rDeny [] [] (by decide),
   claim_C1.2.2.1 stC1 pfNone "tri_state" {"i/C"} {"d/C"} rDeny [] []
     (some [("mandatory", "true")]) 1 (by decide) (by decide) (by decide) (by decide),
   claim_C1.2.2.2.1 stC1 pfNone "tri_state" {"i/C"} {"d/C"} rUnk [] []
     (some [("mandatory", "true")]) 1 (by decide) (by decide) (by decide) (by decide)
     (by decide),
   claim_C1.2.2.2.2.1 stC1 pfNone "tri_state" {"i/C"} {"d/C"} rRec [] []
     (some []) 1 (by decide) (by decide) (by decide) (by decide) (by decide) (by decide),
   claim_C1.2.2.2.2.2 stC1 pfNone "tri_state" {"i/C"} {"d/C"} []⟩

theorem mkReport_decision (k r u : List ResultItem) (n : Nat) :
    ((mkReport k r u n).decision = .DENY ↔ r ≠ [])
  ∧ ((mkReport k r u n).decision = .UNKNOWN ↔ (r = [] ∧ u ≠ []))
  ∧ ((mkReport k r u n).decision = .ALLOW ↔ (r = [] ∧ u = [])) := by
  cases r <;> cases u <;> simp [mkReport]

theorem validate_ok_shape (st : StoreModel) (al : List String)
    (pf : String → Option ℚ) (props : List Hyperedge) (pat : Option String)
    (strat : String) (lys : Option (List String)) (cm : ℚ) (rep : Report)
    (h : validate_edges_against_rules st al pf props pat strat lys cm = .ok rep) :
    ∃ rules k r u,
      evalAll st pf rules strat props = .ok (k, r, u)
      ∧ rep = mkReport k r u rules.length := by
  unfold validate_edges_against_rules at h
  cases hs : selectRules st al pat lys with
  | error e => rw [hs] at h; cases h
  | ok rules0 =>
    rw [hs] at h
    dsimp only at h
    cases hf : filterConfidence st pf cm rules0 with
    | error e => rw [hf] at h; cases h
    | ok rules =>
      rw [hf] at h
      dsimp only at h
      cases he : evalAll st pf rules strat props with
      | error e => rw [he] at h; cases h
      | ok t =>
        rw [he] at h
        obtain ⟨k, r, u⟩ := t
        dsimp only at h
        cases h
        exact ⟨rules, k, r, u, he, rfl⟩

/-- Claim C2: in every ValidationReport the overall decision is DENY
exactly when the rejected list is non-empty, else UNKNOWN exactly when
the unknown list is non-empty, else ALLOW. -/
theorem claim_C2 (st : StoreModel) (al : List String) (pf : String → Option ℚ)
    (props : List Hyperedge) (pat : Option String) (strat : String)
    (lys : Option (List String)) (cm : ℚ) (rep : Report)
    (h : validate_edges_against_rules st al pf props pat strat lys cm = .ok rep) :
    (rep.decision = .DENY ↔ rep.rejected ≠ [])
  ∧ (rep.decision = .UNKNOWN ↔ (rep.rejected = [] ∧ rep.unknown ≠ []))
  ∧ (rep.decision = .ALLOW ↔ (rep.rejected = [] ∧ rep.unknown = [])) := by
  obtain ⟨rules, k, r, u, -, hrep⟩ := validate_ok_shape st al pf props pat strat lys cm rep h
  subst hrep
  exact mkReport_decision k r u rules.length

/-- The report produced for the one-fact batch `[p0]` on the empty
store. -/
def rep0 : Report :=
  { decision := .ALLOW, kept := [keptItem p0 []]
  , rejected := [], unknown := [], rules_checked := 0 }

theorem validateTrivRun :
    validate_edges_against_rules stTriv [] pfNone [p0] none "tri_state" none 0
      = .ok rep0 := by decide

/-- Witness for claim C2 at a concrete store and batch. -/
theorem claim_C2_witness :
    validate_edges_against_rules stTriv [] pfNone [p0] none "tri_state" none 0
      = .ok rep0
  ∧ (rep0.decision = .ALLOW ↔ (rep0.rejected = [] ∧ rep0.unknown = [])) :=
  ⟨validateTrivRun,
   (claim_C2 stTriv [] pfNone [p0] none "tri_state" none 0 rep0 validateTrivRun).2.2⟩

theorem evalAll_count (st : StoreModel) (pf : String → Option ℚ)
    (rules : List Hyperedge) (strat : String) :
    ∀ (props : List Hyperedge) (k r u : List ResultItem),
      evalAll st pf rules strat props = .ok (k, r, u) →
      ∀ e : Hyperedge,
        (k.map ResultItem.edge).count e + (r.map ResultItem.edge).count e
          + (u.map ResultItem.edge).count e = props.count e := by
  intro props
  induction props with
  | nil =>
    intro k r u h e
    simp only [evalAll, Except.ok.injEq, Prod.mk.injEq] at h
    obtain ⟨hk, hr, hu⟩ := h
    subst hk; subst hr; subst hu
    simp
  | cons p ps ih =>
    intro k r u h e
    simp only [evalAll] at h
    cases hev : evaluate_edge st pf p rules strat with
    | error er => rw [hev] at h; cases h
    | ok dt =>
      rw [hev] at h
      obtain ⟨d, tr⟩ := dt
      dsimp only at h
      cases hrec : evalAll st pf rules strat ps with
      | error er => rw [hrec] at h; cases h
      | ok t =>
        rw [hrec] at h
        obtain ⟨k', r', u'⟩ := t
        dsimp only at h
        have hcnt := ih k' r' u' hrec e
        cases d with
        | ALLOW =>
          simp only [Except.ok.injEq, Prod.mk.injEq] at h
          obtain ⟨h1, h2, h3⟩ := h
          subst h1; subst h2; subst h3
          by_cases hpe : p = e <;>
            simp [hpe, List.count_cons, keptItem] <;> omega
        | DENY =>
          simp only [Except.ok.injEq, Prod.mk.injEq] at h
          obtain ⟨h1, h2, h3⟩ := h
          subst h1; subst h2; subst h3
          by_cases hpe : p = e <;>
            simp [hpe, List.count_cons, rejectedItem] <;> omega
        | UNKNOWN =>
          simp only [Except.ok.injEq, Prod.mk.injEq] at h
          obtain ⟨h1, h2, h3⟩ := h
          subst h1; subst h2; subst h3
          by_cases hpe : p = e <;>
            simp [hpe, List.count_cons, unknownItem] <;> omega

theorem evalAll_decisions (st : StoreModel) (pf : String → Option ℚ)
    (rules : List Hyperedge) (strat : String) :
    ∀ (props : List Hyperedge) (k r u : List ResultItem),
      evalAll st pf rules strat props = .ok (k, r, u) →
      (∀ e ∈ k.map ResultItem.edge,
          ∃ tr, evaluate_edge st pf e rules strat = .ok (.ALLOW, tr))
      ∧ (∀ e ∈ r.map ResultItem.edge,
          ∃ tr, evaluate_edge st pf e rules strat = .ok (.DENY, tr))
      ∧ (∀ e ∈ u.map ResultItem.edge,
          ∃ tr, evaluate_edge st pf e rules strat = .ok (.UNKNOWN, tr)) := by
  intro props
  induction props with
  | nil =>
    intro k r u h
    simp only [evalAll, Except.ok.injEq, Prod.mk.injEq] at h
    obtain ⟨hk, hr, hu⟩ := h
    subst hk; subst hr; subst hu
    exact ⟨by simp, by simp, by simp⟩
  | cons p ps ih =>
    intro k r u h
    simp only [evalAll] at h
    cases hev : evaluate_edge st pf p rules strat with
    | error er => rw [hev] at h; cases h
    | ok dt =>
      rw [hev] at h
      obtain ⟨d, tr⟩ := dt
      dsimp only at h
      cases hrec : evalAll st pf rules strat ps with
      | error er => rw [hrec] at h; cases h
      | ok t =>
        rw [hrec] at h
        obtain ⟨k', r', u'⟩ := t
        dsimp only at h
        have hprev := ih k' r' u' hrec
        cases d with
        | ALLOW =>
          simp only [Except.ok.injEq, Prod.mk.injEq] at h
          obtain ⟨h1, h2, h3⟩ := h
          subst h1; subst h2; subst h3
          refine ⟨?_, hprev.2.1, hprev.2.2⟩
          intro e he
          simp only [List.map_cons, List.mem_cons, keptItem] at he
          rcases he with he | he
          · subst he; exact ⟨tr, hev⟩
          · exact hprev.1 e he
        | DENY =>
          simp only [Except.ok.injEq, Prod.mk.injEq] at h
          obtain ⟨h1, h2, h3⟩ := h
          subst h1; subst h2; subst h3
          refine ⟨hprev.1, ?_, hprev.2.2⟩
          intro e he
          simp only [List.map_cons, List.mem_cons, rejectedItem] at he
          rcases he with he | he
          · subst he; exact ⟨tr, hev⟩
          · exact hprev.2.1 e he
        | UNKNOWN =>
          simp only [Except.ok.injEq, Prod.mk.injEq] at h
          obtain ⟨h1, h2, h3⟩ := h
          subst h1; subst h2; subst h3
          refine ⟨hprev.1, hprev.2.1, ?_⟩
          intro e he
          simp only [List.map_cons, List.mem_cons, unknownItem] at he
          rcases he with he | he
          · subst he; exact ⟨tr, hev⟩
          · exact hprev.2.2 e he

/-- Claim C3: the three lists `kept`, `rejected`, `unknown` of a
ValidationReport partition the input batch: counting occurrences, every
proposed fact lands in exactly one list (and nothing else appears), and
the three edge lists are pairwise disjoint. -/
theorem claim_C3 (st : StoreModel) (al : List String) (pf : String → Option ℚ)
    (props : List Hyperedge) (pat : Option String) (strat : String)
    (lys : Option (List String)) (cm : ℚ) (rep : Report)
    (h : validate_edges_against_rules st al pf props pat strat lys cm = .ok rep) :
    (∀ e : Hyperedge,
        (rep.kept.map ResultItem.edge).count e
          + (rep.rejected.map ResultItem.edge).count e
          + (rep.unknown.map ResultItem.edge).count e = props.count e)
  ∧ (∀ e ∈ rep.kept.map ResultItem.edge,
        e ∉ rep.rejected.map ResultItem.edge ∧ e ∉ rep.unknown.map ResultItem.edge)
  ∧ (∀ e ∈ rep.rejected.map ResultItem.edge, e ∉ rep.unknown.map ResultItem.edge) := by
  obtain ⟨rules, k, r, u, he, hrep⟩ :=
    validate_ok_shape st al pf props pat strat lys cm rep h
  subst hrep
  have hdec := evalAll_decisions st pf rules strat props k r u he
  refine ⟨evalAll_count st pf rules strat props k r u he, ?_, ?_⟩
  · intro e hek
    obtain ⟨tr1, h1⟩ := hdec.1 e hek
    constructor
    · intro her
      obtain ⟨tr2, h2⟩ := hdec.2.1 e her
      have := h1.symm.trans h2
      simp at this
    · intro heu
      obtain ⟨tr2, h2⟩ := hdec.2.2 e heu
      have := h1.symm.trans h2
      simp at this
  · intro e her heu
    obtain ⟨tr1, h1⟩ := hdec.2.1 e her
    obtain ⟨tr2, h2⟩ := hdec.2.2 e heu
    have := h1.symm.trans h2
    simp at this

/-- Witness for claim C3 at a concrete store and batch. -/
theorem claim_C3_witness :
    (rep0.kept.map ResultItem.edge).count p0
      + (rep0.rejected.map ResultItem.edge).count p0
      + (rep0.unknown.map ResultItem.edge).count p0
      = ([p0] : List Hyperedge).count p0 :=
  (claim_C3 stTriv [] pfNone [p0] none "tri_state" none 0 rep0 validateTrivRun).1 p0

/-- Whether the store shows `e` as a fact of the `"user"` layer (a
present, non-faulting attribute map whose `layer` value is `"user"`). -/
def isUserLayerFact (st : StoreModel) (e : Hyperedge) : Bool :=
  match st.getAttributes e with
  | .ok (some m) => m.lookup "layer" == some "user"
  | _ => false

/-- Declarative restatement (for comparison with `collectUserConditions`)
of the user-context set over a scanned edge list: all atomic symbols of
the user-layer facts that contain the concept marker `"/C"` and do not
textually reference `"user"` case-insensitively. -/
def contextSpecSet (st : StoreModel) (es : List Hyperedge) : Finset String :=
  (((es.filter (isUserLayerFact st)).flatMap atomsOf).filter keepCtxSym).toFinset

theorem collectGo_spec (st : StoreModel) :
    ∀ (l : List Hyperedge) (acc : Finset String),
      (∀ e ∈ l, ∃ v, st.getAttributes e = .ok v) →
      collectGo st l acc = acc ∪ contextSpecSet st l := by
  intro l
  induction l with
  | nil =>
    intro acc _
    simp [collectGo, contextSpecSet]
  | cons e es ih =>
    intro acc hok
    obtain ⟨v, hv⟩ := hok e (List.mem_cons_self e es)
    have hok' : ∀ x ∈ es, ∃ w, st.getAttributes x = .ok w :=
      fun x hx => hok x (List.mem_cons_of_mem e hx)
    cases v with
    | none =>
      have hlay : isUserLayerFact st e = false := by
        unfold isUserLayerFact
        rw [hv]
      simp only [collectGo]
      rw [hv]
      rw [ih acc hok']
      unfold contextSpecSet
      rw [List.filter_cons_of_neg (by simp [hlay])]
    | some m =>
      by_cases hlay : m.lookup "layer" = some "user"
      · have hfact : isUserLayerFact st e = true := by
          unfold isUserLayerFact
          rw [hv]
          simp [hlay]
        simp only [collectGo]
        rw [hv]
        dsimp only
        rw [if_pos hlay]
        rw [ih (acc ∪ userSyms e) hok']
        unfold contextSpecSet
        rw [List.filter_cons_of_pos (by simp [hfact])]
        rw [List.flatMap_cons, List.filter_append, List.toFinset_append]
        rw [Finset.union_assoc]
        rfl
      · have hfact : isUserLayerFact st e = false := by
          unfold isUserLayerFact
          rw [hv]
          simp [hlay]
        simp only [collectGo]
        rw [hv]
        dsimp only
        rw [if_neg hlay]
        rw [ih acc hok']
        unfold contextSpecSet
        rw [List.filter_cons_of_neg (by simp [hfact])]

/-- Claim C4 (amended): when the scan succeeds, the user-context set
equals the set of atomic symbols containing the concept marker `"/C"`
occurring in the scanned user-layer facts, minus every symbol textually
referencing `"user"` case-insensitively; symbols without `"/C"` are
excluded as well. -/
theorem claim_C4 (st : StoreModel) (es : List Hyperedge)
    (hall : st.allList = .ok es)
    (hattr : ∀ e ∈ es.take 1000, ∃ v, st.getAttributes e = .ok v) :
    collectUserConditions st = contextSpecSet st (es.take 1000) := by
  unfold collectUserConditions
  rw [hall]
  dsimp only
  rw [collectGo_spec st (es.take 1000) ∅ hattr]
  exact Finset.empty_union _

/-- A user-layer fact whose connector symbol `takes/P` carries no
concept marker. -/
def eUser : Hyperedge := .comp [.atom "takes/P", .atom "x/C", .atom "y/C"]

/-- A store holding only `eUser`, tagged with `layer = "user"`. -/
def stC4 : StoreModel :=
  { allList := .ok [eUser]
  , getAttributes := fun e =>
      if e = eUser then .ok (some [("layer", "user")]) else .ok none
  , search := fun _ => .ok [] }

/-- Counterexample to claim C4 as stated: `takes/P` is an atomic symbol
of a scanned user-layer fact and does not reference `"user"`, yet it is
excluded from the collected context (the code additionally requires the
substring `"/C"`). -/
theorem claim_C4_counterexample :
    stC4.allList = .ok [eUser]
  ∧ isUserLayerFact stC4 eUser = true
  ∧ "takes/P" ∈ atomsOf eUser
  ∧ strContains (lowerStr "takes/P") "user" = false
  ∧ "takes/P" ∉ collectUserConditions stC4 := by decide

/-- Witness for the amended claim C4 at a concrete store. -/
theorem claim_C4_witness :
    stC4.allList = .ok [eUser]
  ∧ collectUserConditions stC4 = contextSpecSet stC4 ([eUser].take 1000) :=
  ⟨rfl, claim_C4 stC4 [eUser] rfl (by
    intro e he
    simp only [List.take, List.mem_singleton] at he
    subst he
    exact ⟨some [("layer", "user")], rfl⟩)⟩

/-- A user-layer fact contributing two context symbols. -/
def eCtx : Hyperedge := .comp [.atom "has/P", .atom "c1/C", .atom "c2/C"]

/-- A fact whose attribute read faults. -/
def eBad : Hyperedge := .comp [.atom "bad/P"]

/-- A store whose second attribute read faults after the first already
contributed user-context symbols. -/
def stC5 : StoreModel :=
  { allList := .ok [eCtx, eBad]
  , getAttributes := fun e =>
      if e = eCtx then .ok (some [("layer", "user")])
      else if e = eBad then .error "backend fault"
      else .ok none
  , search := fun _ => .ok [] }

/-- Counterexample to claim C5 as stated: an attribute-read error during
user-context collection is swallowed, but the resulting context is not
empty - the symbols collected before the failing fact are kept. -/
theorem claim_C5_counterexample :
    stC5.allList = .ok [eCtx, eBad]
  ∧ stC5.getAttributes eBad = .error "backend fault"
  ∧ collectUserConditions stC5 ≠ (∅ : Finset String) := by decide

theorem collectGo_append_error (st : StoreModel) (e : Hyperedge) (l2 : List Hyperedge)
    (msg : String) (herr : st.getAttributes e = .error msg) :
    ∀ (l1 : List Hyperedge) (acc : Finset String),
      (∀ x ∈ l1, ∃ v, st.getAttributes x = .ok v) →
      collectGo st (l1 ++ e :: l2) acc = collectGo st l1 acc := by
  intro l1
  induction l1 with
  | nil =>
    intro acc _
    simp only [List.nil_append, collectGo]
    rw [herr]
  | cons x xs ih =>
    intro acc hok
    obtain ⟨v, hv⟩ := hok x (List.mem_cons_self x xs)
    have hok' : ∀ y ∈ xs, ∃ w, st.getAttributes y = .ok w :=
      fun y hy => hok y (List.mem_cons_of_mem x hy)
    simp only [List.cons_append, collectGo]
    rw [hv]
    cases v with
    | none => exact ih acc hok'
    | some m =>
      dsimp only
      by_cases hlay : m.lookup "layer" = some "user"
      · rw [if_pos hlay, if_pos hlay]
        exact ih (acc ∪ userSyms x) hok'
      · rw [if_neg hlay, if_neg hlay]
        exact ih acc hok'

theorem evalRules_nil (st : StoreModel) (pf : String → Option ℚ) (strat : String)
    (pcs ucs : Finset String) :
    evalRules st pf strat pcs ucs [] [] = .ok (.ALLOW, []) := by
  simp [evalRules]

theorem evalAll_nil_rules (st : StoreModel) (pf : String → Option ℚ) (strat : String) :
    ∀ props : List Hyperedge,
      evalAll st pf [] strat props
        = .ok (props.map (fun p => keptItem p []), [], []) := by
  intro props
  induction props with
  | nil => rfl
  | cons p ps ih =>
    simp only [evalAll, evaluate_edge]
    rw [evalRules_nil, ih]
    rfl

theorem filterLayerRules_append_error (st : StoreModel) (active : List String)
    (e : Hyperedge) (l2 : List Hyperedge) (msg : String)
    (herr : st.getAttributes e = .error msg) :
    ∀ l1 : List Hyperedge, (∀ x ∈ l1, ∃ v, st.getAttributes x = .ok v) →
      filterLayerRules st active (l1 ++ e :: l2) = .error (.other msg) := by
  intro l1
  induction l1 with
  | nil =>
    intro _
    simp only [List.nil_append, filterLayerRules]
    rw [herr]
  | cons x xs ih =>
    intro hok
    obtain ⟨v, hv⟩ := hok x (List.mem_cons_self x xs)
    simp only [List.cons_append, filterLayerRules]
    rw [hv]
    dsimp only
    rw [List.append_eq, ih (fun y hy => hok y (List.mem_cons_of_mem x hy))]

/-- Claim C5 (amended): error handling is asymmetric.  An enumeration
error during user-context collection is swallowed and yields the empty
context; an attribute-read error during collection is swallowed and the
context retains exactly the symbols collected before the failing fact
(empty when the failure precedes any collection); in both cases
validation still produces a ValidationReport.  An error raised during
rule selection - the pattern query, or the enumeration and attribute
reads of the layer-based candidate-rule scan - propagates to the caller
and no ValidationReport is produced. -/
theorem claim_C5 :
    (∀ (st : StoreModel) (m : String), st.allList = .error m →
        collectUserConditions st = ∅)
  ∧ (∀ (st : StoreModel) (l1 : List Hyperedge) (e : Hyperedge) (l2 : List Hyperedge)
        (msg : String),
        st.allList = .ok (l1 ++ e :: l2) →
        (l1 ++ e :: l2).length ≤ 1000 →
        (∀ x ∈ l1, ∃ v, st.getAttributes x = .ok v) →
        st.getAttributes e = .error msg →
        collectUserConditions st = collectGo st l1 ∅)
  ∧ (∀ (st : StoreModel) (al : List String) (pf : String → Option ℚ)
        (props : List Hyperedge) (pat m strat : String) (cm : ℚ),
        pat.isEmpty = false →
        sanitize_pattern pat 10 = .ok pat →
        st.search pat = .ok [] →
        st.allList = .error m →
        validate_edges_against_rules st al pf props (some pat) strat none cm
          = .ok (mkReport (props.map (fun p => keptItem p [])) [] [] 0))
  ∧ (∀ (st : StoreModel) (al : List String) (pf : String → Option ℚ)
        (props : List Hyperedge) (pat msg strat : String)
        (lys : Option (List String)) (cm : ℚ),
        pat.isEmpty = false →
        sanitize_pattern pat 10 = .ok pat →
        st.search pat = .error msg →
        validate_edges_against_rules st al pf props (some pat) strat lys cm
          = .error (.store ("Query failed: " ++ msg)))
  ∧ (∀ (st : StoreModel) (al : List String) (pf : String → Option ℚ)
        (props : List Hyperedge) (strat : String) (lys : Option (List String))
        (cm : ℚ) (m : String),
        st.allList = .error m →
        validate_edges_against_rules st al pf props none strat lys cm
          = .error (.other m))
  ∧ (∀ (st : StoreModel) (al : List String) (pf : String → Option ℚ)
        (props : List Hyperedge) (strat : String) (lys : Option (List String))
        (cm : ℚ) (l1 : List Hyperedge) (e : Hyperedge) (l2 : List Hyperedge)
        (msg : String),
        st.allList = .ok (l1 ++ e :: l2) →
        (l1 ++ e :: l2).length ≤ 10000 →
        (∀ x ∈ l1, ∃ v, st.getAttributes x = .ok v) →
        st.getAttributes e = .error msg →
        validate_edges_against_rules st al pf props none strat lys cm
          = .error (.other msg)) := by
  refine ⟨?_, ?_, ?_, ?_, ?_, ?_⟩
  · intro st m h
    unfold collectUserConditions
    rw [h]
  · intro st l1 e l2 msg hall hlen hok herr
    unfold collectUserConditions
    rw [hall]
    dsimp only
    rw [List.take_of_length_le hlen]
    exact collectGo_append_error st e l2 msg herr l1 ∅ hok
  · intro st al pf props pat m strat cm hne hsan hsearch hall
    unfold validate_edges_against_rules
    simp only [selectRules, hne, Bool.false_eq_true, if_false]
    unfold apiQuery
    rw [hsan]
    dsimp only
    rw [hsearch]
    dsimp only
    unfold filterConfidence
    by_cases hcm : 0 < cm
    · rw [if_pos hcm]
      dsimp only [filterConfGo]
      rw [evalAll_nil_rules]
      rfl
    · rw [if_neg hcm]
      dsimp only
      rw [evalAll_nil_rules]
      rfl
  · intro st al pf props pat msg strat lys cm hne hsan hsearch
    unfold validate_edges_against_rules
    simp only [selectRules, hne, Bool.false_eq_true, if_false]
    unfold apiQuery
    rw [hsan]
    dsimp only
    rw [hsearch]
  · intro st al pf props strat lys cm m hall
    unfold validate_edges_against_rules
    simp only [selectRules]
    unfold selectByLayers allEdgesM
    rw [hall]
  · intro st al pf props strat lys cm l1 e l2 msg hall hlen hok herr
    unfold validate_edges_against_rules
    simp only [selectRules]
    unfold selectByLayers allEdgesM
    rw [hall]
    dsimp only
    rw [List.take_of_length_le hlen]
    rw [filterLayerRules_append_error st (activeSetOf al lys) e l2 msg herr l1 hok]

/-- A store whose enumeration faults but whose search succeeds. -/
def stErr : StoreModel :=
  { allList := .error "enum down"
  , getAttributes := fun _ => .ok none
  , search := fun _ => .ok [] }

/-- A store whose pattern search faults. -/
def stErrQ : StoreModel :=
  { allList := .error "enum down"
  , getAttributes := fun _ => .ok none
  , search := fun _ => .error "net down" }

/-- Witness for the amended claim C5: each of its six parts at a
concrete store. -/
theorem claim_C5_witness :
    collectUserConditions stErr = ∅
  ∧ collectUserConditions stC5 = collectGo stC5 [eCtx] ∅
  ∧ validate_edges_against_rules stErr [] pfNone [p0] (some "(p)") "tri_state" none 0
      = .ok (mkReport [keptItem p0 []] [] [] 0)
  ∧ validate_edges_against_rules stErrQ [] pfNone [p0] (some "(p)") "tri_state" none 0
      = .error (.store ("Query failed: " ++ "net down"))
  ∧ validate_edges_against_rules stErr [] pfNone [p0] none "tri_state" none 0
      = .error (.other "enum down")
  ∧ validate_edges_against_rules stC5 [] pfNone [p0] none "tri_state" none 0
      = .error (.other "backend fault") :=
  ⟨claim_C5.1 stErr "enum down" rfl,
   claim_C5.2.1 stC5 [eCtx] eBad [] "backend fault" rfl (by decide)
     (by
       intro x hx
       simp only [List.mem_singleton] at hx
       subst hx
       exact ⟨some [("layer", "user")], rfl⟩)
     (by decide),
   claim_C5.2.2.1 stErr [] pfNone [p0] "(p)" "enum down" "tri_state" 0
     (by decide) (by decide) rfl rfl,
   claim_C5.2.2.2.1 stErrQ [] pfNone [p0] "(p)" "net down" "tri_state" none 0
     (by decide) (by decide) rfl,
   claim_C5.2.2.2.2.1 stErr [] pfNone [p0] "tri_state" none 0 "enum down" rfl,
   claim_C5.2.2.2.2.2 stC5 [] pfNone [p0] "tri_state" none 0 [eCtx] eBad []
     "backend fault" rfl (by decide)
     (by
       intro x hx
       simp only [List.mem_singleton] at hx
       subst hx
       exact ⟨some [("layer", "user")], rfl⟩)
     (by decide)⟩
